import Mathlib

/-!
Shallow embedding of the waveform LUT construction module
(`src/waveforms.py` of the moku_arbitrary_waveform_poc repository)
and proofs of the specification's claims about it.

Modelling conventions:
* Samples, times, frequencies and amplitudes are exact rationals (`ℚ`);
  Python floats are modelled by exact arithmetic, so `isfinite` checks
  are vacuously true and NaN/inf never arise.
* Python exceptions become `Except AwgError`; the two `ValueError`
  messages of the source are kept and classified as the spec's
  `InvalidArgument` / `NormalizationError` kinds by their message.
* `numpy` arrays become `List ℚ`; `np.linspace` is embedded exactly
  (including its special case `num = 1`, which returns `[start]`).
* The real exponential in `gaussian_pulse` is not rational-valued, so
  the Gaussian builders are parameterised by a function `gexp : ℚ → ℚ`
  standing for `x ↦ exp x`; every theorem about them either holds for
  all `gexp` or assumes only `∀ x, 0 < gexp x`, which is true of `exp`.
-/

set_option maxRecDepth 8000

namespace Waveforms

/-- Error kinds of the spec: Python `ValueError`s raised by the module,
classified by their message into the spec's two error kinds. -/
inductive AwgError where
  | invalidArgument : String → AwgError
  | normalizationError : String → AwgError
  deriving DecidableEq, Repr

/-- Result of a fallible waveform computation. -/
abbrev AwgResult (α : Type) := Except AwgError α

instance {α : Type} [DecidableEq α] : DecidableEq (AwgResult α)
  | .ok a, .ok b =>
    if h : a = b then .isTrue (by rw [h])
    else .isFalse (fun hh => h (Except.ok.inj hh))
  | .ok _, .error _ => .isFalse (fun hh => Except.noConfusion hh)
  | .error _, .ok _ => .isFalse (fun hh => Except.noConfusion hh)
  | .error e, .error f =>
    if h : e = f then .isTrue (by rw [h])
    else .isFalse (fun hh => h (Except.error.inj hh))

/-- Python `str.lower` on a character list (ASCII case mapping, which
covers every strategy string the module compares against). -/
def pyLower (s : List Char) : List Char := s.map Char.toLower

/-- Python `str.strip` on a character list: drop leading and trailing
whitespace. -/
def pyStrip (s : List Char) : List Char :=
  ((s.dropWhile Char.isWhitespace).reverse.dropWhile Char.isWhitespace).reverse

/-- The strategy key the normalizer dispatches on:
`str(normalize).lower().strip()` from src/waveforms.py line 35. -/
def strategyOf (normalize : String) : List Char :=
  pyStrip (pyLower normalize.data)

/-- Embedding of `np.linspace(0.0, T, N, endpoint)`.

With `endpoint = true` and `N = 1`, numpy returns `[start] = [0]`;
with `endpoint = true` and `N ≥ 2` the step is `T / (N - 1)` and numpy
forces the last entry to `T`, which in exact arithmetic is already
`(N-1) * (T / (N-1))`; with `endpoint = false` the step is `T / N`. -/
def linspace (T : ℚ) (N : ℕ) (endpoint : Bool) : List ℚ :=
  if endpoint then
    if N = 1 then [0]
    else (List.range N).map (fun i : ℕ => (i : ℚ) * (T / ((N : ℚ) - 1)))
  else
    (List.range N).map (fun i : ℕ => (i : ℚ) * (T / (N : ℚ)))

/-- Embedding of `make_time_axis` (src/waveforms.py lines 11-19):
validates `N > 0` and `T_rep_s` finite and positive, then delegates to
`np.linspace(0.0, T_rep_s, N, endpoint)`. -/
def make_time_axis (T_rep_s : ℚ) (N : ℕ) (endpoint : Bool) : AwgResult (List ℚ) :=
  if N = 0 then
    .error (.invalidArgument "N must be positive")
  else if T_rep_s ≤ 0 then
    .error (.invalidArgument "T_rep_s must be finite and > 0")
  else
    .ok (linspace T_rep_s N endpoint)

/-- Executable absolute value on `ℚ` (numpy `np.abs` on one sample). -/
def qabs (x : ℚ) : ℚ := if x < 0 then -x else x

/-- Executable binary maximum on `ℚ`. -/
def qmax (a b : ℚ) : ℚ := if a ≤ b then b else a

/-- Executable binary minimum on `ℚ`. -/
def qmin (a b : ℚ) : ℚ := if a ≤ b then a else b

theorem qabs_eq (x : ℚ) : qabs x = |x| := by
  unfold qabs
  split
  · exact (abs_of_neg (by assumption)).symm
  · exact (abs_of_nonneg (le_of_not_lt (by assumption))).symm

theorem qmax_eq (a b : ℚ) : qmax a b = max a b := by
  unfold qmax
  split
  · exact (max_eq_right (by assumption)).symm
  · exact (max_eq_left (le_of_not_le (by assumption))).symm

theorem qmin_eq (a b : ℚ) : qmin a b = min a b := by
  unfold qmin
  split
  · exact (min_eq_left (by assumption)).symm
  · exact (min_eq_right (le_of_not_le (by assumption))).symm

/-- Embedding of `float(np.max(np.abs(wave))) if wave.size else 0.0`
(src/waveforms.py line 38): the maximum absolute value of the samples,
`0` for the empty list.  (Folding `max` from `0` agrees with numpy's
max on nonempty input because every `|x|` is nonnegative.) -/
def peakOf : List ℚ → ℚ
  | [] => 0
  | x :: xs => qmax (qabs x) (peakOf xs)

/-- Embedding of `np.clip(v, -1.0, 1.0)` on one sample. -/
def clip1 (v : ℚ) : ℚ := qmax (-1) (qmin v 1)

/-- Embedding of `waveform_to_lut` (src/waveforms.py lines 22-49), the
LUT normalizer: lower-cases and strips the strategy string, dispatches
on `"peak"` / `{"none", "off", "false"}` / unknown, and finally clips
to `[-1, 1]` when requested.  Over `ℚ` the source's
`not np.isfinite(peak) or peak <= 0.0` test is exactly `peak ≤ 0`. -/
def waveform_to_lut (wave : List ℚ) (normalize : String) (clip : Bool) :
    AwgResult (List ℚ) :=
  let strategy := strategyOf normalize
  let lutE : AwgResult (List ℚ) :=
    if strategy = "peak".data then
      if peakOf wave ≤ 0 then
        .error (.normalizationError
          "Waveform peak is zero or non-finite; cannot normalize.")
      else
        .ok (wave.map (fun x => x / peakOf wave))
    else if strategy = "none".data ∨ strategy = "off".data ∨ strategy = "false".data then
      .ok wave
    else
      .error (.invalidArgument "Unsupported normalize strategy")
  match lutE with
  | .error e => .error e
  | .ok lut => .ok (if clip then lut.map clip1 else lut)

/-- Embedding of `gaussian_pulse` (src/waveforms.py lines 52-70) at one
time sample: `amp * exp(-0.5 * ((t - t_center) / sigma) ** 2)`, with
`gexp` standing for the real exponential. -/
def gaussian_pulse (gexp : ℚ → ℚ) (t t_center_s sigma_s amp : ℚ) : ℚ :=
  amp * gexp (-(1 / 2) * ((t - t_center_s) / sigma_s) ^ 2)

/-- Embedding of the frozen dataclass `RamseyParams`. -/
structure RamseyParams where
  t_pi2_s : ℚ
  tau_s : ℚ
  deriving DecidableEq, Repr

/-- Embedding of the frozen dataclass `SquareWaveParams`. -/
structure SquareWaveParams where
  f_rep_hz : ℚ
  duty : ℚ
  high : ℚ
  low : ℚ
  deriving DecidableEq, Repr

/-- Embedding of `build_gaussian_ramsey_lut` (src/waveforms.py lines
91-130): period `T_rep = 2*tau + 2*t_pi2`, `f_rep = 1/T_rep`, half-open
time axis, boundaries `t1 = tau`, `t2 = t1 + t_pi2`, `t3 = t2 + tau`,
`t4 = t3 + t_pi2`, two Gaussian pulses of width `sigma_frac * t_pi2`
centred at the midpoints of `[t1,t2]` and `[t3,t4]` summed elementwise,
then peak-normalized with clipping.  (In Python, `1.0 / T_rep` with
`T_rep == 0.0` raises `ZeroDivisionError` before any other check; over
`ℚ` that expression is total, so theorems below avoid `T_rep = 0`.) -/
def build_gaussian_ramsey_lut (gexp : ℚ → ℚ) (params : RamseyParams)
    (N : ℕ) (sigma_frac : ℚ) (amp : ℚ) :
    AwgResult (List ℚ × List ℚ × ℚ × (ℚ × ℚ × ℚ × ℚ)) :=
  let t_pi2 := params.t_pi2_s
  let tau := params.tau_s
  let T_rep := 2 * tau + 2 * t_pi2
  let f_rep := 1 / T_rep
  match make_time_axis T_rep N false with
  | .error e => .error e
  | .ok t_s =>
    let t1 := 0 + tau
    let t2 := t1 + t_pi2
    let t3 := t2 + tau
    let t4 := t3 + t_pi2
    let sigma := sigma_frac * t_pi2
    let wave := t_s.map (fun t =>
      0 + gaussian_pulse gexp t ((t1 + t2) / 2) sigma amp
        + gaussian_pulse gexp t ((t3 + t4) / 2) sigma amp)
    match waveform_to_lut wave "peak" true with
    | .error e => .error e
    | .ok lut => .ok (t_s, lut, f_rep, (t1, t2, t3, t4))

/-- Embedding of `build_square_lut` (src/waveforms.py lines 133-162):
validates `f_rep_hz` finite positive and `duty ∈ [0,1]`, builds the
half-open time axis over `T_rep = 1 / f_rep_hz`, sets each raw sample
to `high` where `t < duty * T_rep` and `low` otherwise, normalizes with
the caller's strategy and clipping on, and returns the boundary
`t_high_end = duty * T_rep` (the Python one-tuple becomes a scalar). -/
def build_square_lut (params : SquareWaveParams) (N : ℕ)
    (normalize : String) : AwgResult (List ℚ × List ℚ × ℚ × ℚ) :=
  if params.f_rep_hz ≤ 0 then
    .error (.invalidArgument "f_rep_hz must be finite and > 0")
  else if params.duty < 0 ∨ 1 < params.duty then
    .error (.invalidArgument "duty must be in [0, 1]")
  else
    let T_rep := 1 / params.f_rep_hz
    match make_time_axis T_rep N false with
    | .error e => .error e
    | .ok t_s =>
      let t_high_end := params.duty * T_rep
      let wave := t_s.map (fun t => if t < t_high_end then params.high else params.low)
      match waveform_to_lut wave normalize true with
      | .error e => .error e
      | .ok lut => .ok (t_s, lut, params.f_rep_hz, t_high_end)

/-- Does a result carry the spec's `NormalizationError` kind? -/
def isNormErr {α : Type} : AwgResult α → Bool
  | .error (.normalizationError _) => true
  | _ => false

/-- Does a result carry the spec's `InvalidArgument` kind? -/
def isInvalidArg {α : Type} : AwgResult α → Bool
  | .error (.invalidArgument _) => true
  | _ => false

/-- The LUT component of a square/ramsey builder result, `[]` on error. -/
def lutOf {β : Type} : AwgResult (List ℚ × List ℚ × β) → List ℚ
  | .ok r => r.2.1
  | .error _ => []

/-! ### Basic lemmas about the peak and the clip -/

theorem peakOf_nil : peakOf [] = 0 := rfl

theorem peakOf_cons (x : ℚ) (xs : List ℚ) :
    peakOf (x :: xs) = max |x| (peakOf xs) := by
  rw [peakOf, qmax_eq, qabs_eq]

theorem peakOf_nonneg (w : List ℚ) : 0 ≤ peakOf w := by
  induction w with
  | nil => exact le_refl 0
  | cons x xs ih => rw [peakOf_cons]; exact le_max_of_le_right ih

theorem abs_le_peakOf {x : ℚ} {w : List ℚ} (hx : x ∈ w) : |x| ≤ peakOf w := by
  induction w with
  | nil => cases hx
  | cons y ys ih =>
    rw [peakOf_cons]
    rcases List.mem_cons.mp hx with h | h
    · rw [h]; exact le_max_left _ _
    · exact le_max_of_le_right (ih h)

theorem peakOf_pos {x : ℚ} {w : List ℚ} (hx : x ∈ w) (hne : x ≠ 0) :
    0 < peakOf w :=
  lt_of_lt_of_le (abs_pos.mpr hne) (abs_le_peakOf hx)

theorem exists_abs_eq_peakOf {w : List ℚ} (hw : w ≠ []) :
    ∃ x ∈ w, |x| = peakOf w := by
  induction w with
  | nil => cases hw rfl
  | cons y ys ih =>
    rw [peakOf_cons]
    cases ys with
    | nil =>
      exact ⟨y, List.mem_cons_self y [], by
        rw [peakOf_nil, max_eq_left (abs_nonneg y)]⟩
    | cons z zs =>
      rcases le_total (peakOf (z :: zs)) |y| with h | h
      · exact ⟨y, List.mem_cons_self _ _, (max_eq_left h).symm⟩
      · rcases ih (by simp) with ⟨x, hxmem, hxeq⟩
        exact ⟨x, List.mem_cons_of_mem y hxmem, by rw [hxeq, max_eq_right h]⟩

theorem peakOf_eq_zero {w : List ℚ} (h : ∀ x ∈ w, x = 0) : peakOf w = 0 := by
  induction w with
  | nil => rfl
  | cons y ys ih =>
    rw [peakOf_cons, h y (List.mem_cons_self y ys), abs_zero,
      ih (fun x hx => h x (List.mem_cons_of_mem y hx))]
    exact max_eq_left (le_refl 0)

theorem peakOf_map_div {w : List ℚ} {p : ℚ} (hp : 0 < p) :
    peakOf (w.map (fun x => x / p)) = peakOf w / p := by
  induction w with
  | nil => simp [peakOf_nil]
  | cons y ys ih =>
    rw [List.map_cons, peakOf_cons, peakOf_cons, ih, abs_div, abs_of_pos hp]
    exact ((monotone_div_right_of_nonneg hp.le).map_max).symm

theorem peakOf_map_mul {w : List ℚ} {c : ℚ} (hc : 0 ≤ c) :
    peakOf (w.map (fun x => c * x)) = c * peakOf w := by
  induction w with
  | nil => simp [peakOf_nil]
  | cons y ys ih =>
    rw [List.map_cons, peakOf_cons, peakOf_cons, ih, abs_mul, abs_of_nonneg hc]
    exact ((monotone_mul_left_of_nonneg hc).map_max).symm

theorem clip1_eq (v : ℚ) : clip1 v = max (-1) (min v 1) := by
  rw [clip1, qmax_eq, qmin_eq]

theorem clip1_of_abs_le {v : ℚ} (h : |v| ≤ 1) : clip1 v = v := by
  rcases abs_le.mp h with ⟨h1, h2⟩
  rw [clip1_eq, min_eq_left h2, max_eq_right h1]

/-! ### Branch lemmas for the normalizer -/

theorem strategyOf_peak : strategyOf "peak" = "peak".data := by decide

theorem strategyOf_none : strategyOf "none" = "none".data := by decide

theorem waveform_to_lut_peak (w : List ℚ) (c : Bool) :
    waveform_to_lut w "peak" c =
      if peakOf w ≤ 0 then
        .error (.normalizationError
          "Waveform peak is zero or non-finite; cannot normalize.")
      else
        .ok (if c then (w.map (fun x => x / peakOf w)).map clip1
             else w.map (fun x => x / peakOf w)) := by
  by_cases h : peakOf w ≤ 0 <;>
    simp [waveform_to_lut, strategyOf_peak, h]

theorem waveform_to_lut_strategy_peak {s : String}
    (hs : strategyOf s = "peak".data) (w : List ℚ) (c : Bool) :
    waveform_to_lut w s c = waveform_to_lut w "peak" c := by
  by_cases h : peakOf w ≤ 0 <;>
    simp [waveform_to_lut, strategyOf_peak, hs, h]

theorem waveform_to_lut_none (w : List ℚ) (c : Bool) :
    waveform_to_lut w "none" c = .ok (if c then w.map clip1 else w) := by
  have hne : ¬ ("none".data = "peak".data) := by decide
  simp [waveform_to_lut, strategyOf_none, hne]

theorem waveform_to_lut_other {s : String}
    (h1 : strategyOf s ≠ "peak".data) (h2 : strategyOf s ≠ "none".data)
    (h3 : strategyOf s ≠ "off".data) (h4 : strategyOf s ≠ "false".data)
    (w : List ℚ) (c : Bool) :
    waveform_to_lut w s c =
      .error (.invalidArgument "Unsupported normalize strategy") := by
  simp [waveform_to_lut, h1, h2, h3, h4]

theorem map_id_of_mem {l : List ℚ} {f : ℚ → ℚ} (h : ∀ a ∈ l, f a = a) :
    l.map f = l := by
  induction l with
  | nil => rfl
  | cons y ys ih =>
    rw [List.map_cons, h y (List.mem_cons_self y ys),
      ih (fun a ha => h a (List.mem_cons_of_mem y ha))]

/-! ### Claim theorems -/

/-- C1: for every sample sequence containing a nonzero value,
`normalize` with strategy `"peak"` and `clip = true` succeeds and
returns the sequence of input samples each divided by the maximum
absolute input value; the result has the same length, its maximum
absolute value is exactly `1`, and every value lies in `[-1, 1]`. -/
theorem peak_normalize_peak_clip_spec (w : List ℚ) (x0 : ℚ)
    (hx0 : x0 ∈ w) (hx0ne : x0 ≠ 0) :
    waveform_to_lut w "peak" true = .ok (w.map (fun x => x / peakOf w)) ∧
    (w.map (fun x => x / peakOf w)).length = w.length ∧
    peakOf (w.map (fun x => x / peakOf w)) = 1 ∧
    ∀ v ∈ w.map (fun x => x / peakOf w), -1 ≤ v ∧ v ≤ 1 := by
  have hp : 0 < peakOf w := peakOf_pos hx0 hx0ne
  have habs : ∀ v ∈ w.map (fun x => x / peakOf w), |v| ≤ 1 := by
    intro v hv
    rcases List.mem_map.mp hv with ⟨x, hx, rfl⟩
    rw [abs_div, abs_of_pos hp, div_le_one hp]
    exact abs_le_peakOf hx
  refine ⟨?_, List.length_map w _, ?_, fun v hv => abs_le.mp (habs v hv)⟩
  · rw [waveform_to_lut_peak, if_neg (not_le.mpr hp), if_pos rfl,
      map_id_of_mem (fun a ha => clip1_of_abs_le (habs a ha))]
  · rw [peakOf_map_div hp, div_self (ne_of_gt hp)]

/-- Witness for C1 at the concrete input `w = [2]`. -/
theorem peak_normalize_peak_clip_spec_witness :
    ((2 : ℚ) ∈ [(2 : ℚ)]) ∧ ((2 : ℚ) ≠ 0) ∧
    (waveform_to_lut [2] "peak" true =
        .ok ([(2 : ℚ)].map (fun x => x / peakOf [2])) ∧
      ([(2 : ℚ)].map (fun x => x / peakOf [2])).length = [(2 : ℚ)].length ∧
      peakOf ([(2 : ℚ)].map (fun x => x / peakOf [2])) = 1 ∧
      ∀ v ∈ [(2 : ℚ)].map (fun x => x / peakOf [2]), -1 ≤ v ∧ v ≤ 1) :=
  ⟨by decide, by decide,
    peak_normalize_peak_clip_spec [2] 2 (by decide) (by decide)⟩

/-- C8: `normalize(x, "none", clip = false)` is the identity: it
returns the input samples unchanged. -/
theorem normalize_none_noclip_id (w : List ℚ) :
    waveform_to_lut w "none" false = .ok w := by
  rw [waveform_to_lut_none]
  rfl

/-- C9: peak normalization is scale-invariant: scaling every sample by
a positive constant `c` does not change the result of `normalize` with
strategy `"peak"`, for either clip setting. -/
theorem peak_normalize_scale_invariant (w : List ℚ) (c : ℚ) (hc : 0 < c)
    (x0 : ℚ) (hx0 : x0 ∈ w) (hx0ne : x0 ≠ 0) (clip : Bool) :
    waveform_to_lut (w.map (fun x => c * x)) "peak" clip =
      waveform_to_lut w "peak" clip := by
  have hp : 0 < peakOf w := peakOf_pos hx0 hx0ne
  have hp' : peakOf (w.map (fun x => c * x)) = c * peakOf w :=
    peakOf_map_mul hc.le
  have hcp : 0 < c * peakOf w := mul_pos hc hp
  have hmap : (w.map (fun x => c * x)).map (fun x => x / (c * peakOf w)) =
      w.map (fun x => x / peakOf w) := by
    rw [List.map_map]
    exact List.map_congr_left (fun a _ =>
      mul_div_mul_left a (peakOf w) (ne_of_gt hc))
  rw [waveform_to_lut_peak, waveform_to_lut_peak, hp',
    if_neg (not_le.mpr hcp), if_neg (not_le.mpr hp), hmap]

/-- Witness for C9 at `w = [1]`, `c = 2`, `clip = true`. -/
theorem peak_normalize_scale_invariant_witness :
    ((0 : ℚ) < 2) ∧ ((1 : ℚ) ∈ [(1 : ℚ)]) ∧ ((1 : ℚ) ≠ 0) ∧
    waveform_to_lut ([(1 : ℚ)].map (fun x => 2 * x)) "peak" true =
      waveform_to_lut [(1 : ℚ)] "peak" true :=
  ⟨by decide, by decide, by decide,
    peak_normalize_scale_invariant [1] 2 (by decide) 1 (by decide) (by decide) true⟩

/-- C5 counterexample: the strategy string `" PEAK "` is not
case-insensitively equal to `"peak"`, `"none"`, `"off"` or `"false"`
(lower-casing both sides leaves the surrounding whitespace), yet the
normalizer does not fail with `InvalidArgument` on it: the code also
strips whitespace, so `normalize([1], " PEAK ", clip=true)` returns a
LUT. -/
theorem normalize_strategy_case_cex :
    (pyLower " PEAK ".data ≠ pyLower "peak".data ∧
     pyLower " PEAK ".data ≠ pyLower "none".data ∧
     pyLower " PEAK ".data ≠ pyLower "off".data ∧
     pyLower " PEAK ".data ≠ pyLower "false".data) ∧
    isInvalidArg (waveform_to_lut [1] " PEAK " true) = false ∧
    waveform_to_lut [1] " PEAK " true = .ok [1] := by
  refine ⟨by decide, ?_, ?_⟩ <;>
  · have hstr : strategyOf " PEAK " = "peak".data := by decide
    have hp : peakOf [1] = 1 := by
      rw [peakOf_cons, peakOf_nil, abs_one]
      exact max_eq_left zero_le_one
    rw [waveform_to_lut_strategy_peak hstr, waveform_to_lut_peak, hp,
      if_neg (by norm_num)]
    simp [isInvalidArg, clip1_of_abs_le, abs_one]

/-- C5 (amended): with strategy `"peak"`, `normalize` fails with
`NormalizationError` exactly when the maximum absolute input value is
not positive (over exact arithmetic: when it is zero, which includes
the empty sequence, whose peak is defined as `0`); and for every
strategy string whose lower-cased, whitespace-stripped form is none of
`"peak"`, `"none"`, `"off"`, `"false"`, `normalize` fails with
`InvalidArgument`.  On failure only an error is returned, never a
sample sequence. -/
theorem normalize_error_conditions (s : String)
    (hs : strategyOf s ∉ ["peak".data, "none".data, "off".data, "false".data]) :
    (∀ (w : List ℚ) (c : Bool),
      isNormErr (waveform_to_lut w "peak" c) = true ↔ peakOf w ≤ 0) ∧
    (∀ c : Bool, isNormErr (waveform_to_lut [] "peak" c) = true) ∧
    (∀ (w : List ℚ) (c : Bool), isInvalidArg (waveform_to_lut w s c) = true) := by
  simp only [List.mem_cons, List.not_mem_nil, or_false, not_or] at hs
  have hpeak : ∀ (w : List ℚ) (c : Bool),
      isNormErr (waveform_to_lut w "peak" c) = true ↔ peakOf w ≤ 0 := by
    intro w c
    rw [waveform_to_lut_peak]
    by_cases h : peakOf w ≤ 0
    · simp [h, isNormErr]
    · simp [h, isNormErr]
  refine ⟨hpeak, ?_, ?_⟩
  · intro c
    exact (hpeak [] c).mpr (le_refl 0)
  · intro w c
    rw [waveform_to_lut_other hs.1 hs.2.1 hs.2.2.1 hs.2.2.2]
    rfl

/-- Witness for C5 (amended) at the concrete strategy `"bogus"`. -/
theorem normalize_error_conditions_witness :
    (strategyOf "bogus" ∉
      ["peak".data, "none".data, "off".data, "false".data]) ∧
    ((∀ (w : List ℚ) (c : Bool),
      isNormErr (waveform_to_lut w "peak" c) = true ↔ peakOf w ≤ 0) ∧
    (∀ c : Bool, isNormErr (waveform_to_lut [] "peak" c) = true) ∧
    (∀ (w : List ℚ) (c : Bool),
      isInvalidArg (waveform_to_lut w "bogus" c) = true)) :=
  ⟨by decide, normalize_error_conditions "bogus" (by decide)⟩

/-- C2 counterexample: with `period_s = 1`, `N = 1` and
`endpoint = true`, `make_time_axis` returns the single sample `[0]`
(numpy's `linspace` special case for one point), so the last value is
`0`, not `period_s` as the claim requires for the inclusive mode. -/
theorem make_time_axis_endpoint_singleton_cex :
    make_time_axis 1 1 true = .ok [(0 : ℚ)] ∧
    (Except.ok [(0 : ℚ)] : AwgResult (List ℚ)) ≠ .ok [(1 : ℚ)] ∧
    [(0 : ℚ)].getLast? ≠ some (1 : ℚ) := by
  refine ⟨by decide, by decide, by decide⟩

/-- C2 (amended): for finite `period_s > 0` and `N > 0`,
`make_time_axis` succeeds and returns exactly `N` values, strictly
increasing, first value `0`; with `endpoint = false` all values lie in
`[0, period_s)` and consecutive values are `period_s / N` apart; with
`endpoint = true` and `N ≥ 2` all values lie in `[0, period_s]` and
the last equals `period_s`, while with `N = 1` the inclusive-mode axis
is the single value `[0]` (its last value is `0`, not `period_s`). -/
theorem make_time_axis_spec (T : ℚ) (N : ℕ) (hT : 0 < T) (hN : 0 < N) :
    (∀ ep : Bool, make_time_axis T N ep = .ok (linspace T N ep)) ∧
    (∀ ep : Bool, (linspace T N ep).length = N) ∧
    (∀ ep : Bool, (linspace T N ep).head? = some 0) ∧
    (∀ ep : Bool, (linspace T N ep).Pairwise (· < ·)) ∧
    (∀ x ∈ linspace T N false, 0 ≤ x ∧ x < T) ∧
    (∀ i : ℕ, i + 1 < N →
      (linspace T N false).getD (i + 1) 0 - (linspace T N false).getD i 0
        = T / N) ∧
    (2 ≤ N → (∀ x ∈ linspace T N true, 0 ≤ x ∧ x ≤ T) ∧
      (linspace T N true).getLast? = some T) ∧
    (N = 1 → linspace T N true = [0]) := by
  have hNQ : (0 : ℚ) < (N : ℚ) := by exact_mod_cast hN
  have hstep : 0 < T / (N : ℚ) := div_pos hT hNQ
  have hok : ∀ ep : Bool, make_time_axis T N ep = .ok (linspace T N ep) := by
    intro ep
    rw [make_time_axis, if_neg (Nat.pos_iff_ne_zero.mp hN),
      if_neg (not_le.mpr hT)]
  have hlin_false :
      linspace T N false
        = (List.range N).map (fun i : ℕ => (i : ℚ) * (T / N)) := by
    rw [linspace]; rfl
  have hlin_true_big (h2 : 2 ≤ N) :
      linspace T N true
        = (List.range N).map (fun i : ℕ => (i : ℚ) * (T / ((N : ℚ) - 1))) := by
    rw [linspace]
    simp only [if_true]
    rw [if_neg (by omega)]
  have hstep' (h2 : 2 ≤ N) : 0 < T / ((N : ℚ) - 1) := by
    apply div_pos hT
    have : (2 : ℚ) ≤ (N : ℚ) := by exact_mod_cast h2
    linarith
  refine ⟨hok, ?_, ?_, ?_, ?_, ?_, ?_, ?_⟩
  · intro ep
    cases ep with
    | false => rw [hlin_false, List.length_map, List.length_range]
    | true =>
      by_cases h1 : N = 1
      · rw [linspace]; simp [h1]
      · rw [hlin_true_big (by omega), List.length_map, List.length_range]
  · intro ep
    have hfirst : ∀ g : ℕ → ℚ, g 0 = 0 →
        ((List.range N).map g).head? = some 0 := by
      intro g hg
      rw [List.head?_eq_getElem?, List.getElem?_map, List.getElem?_range hN,
        Option.map_some', hg]
    cases ep with
    | false => rw [hlin_false]; exact hfirst _ (by rw [Nat.cast_zero, zero_mul])
    | true =>
      by_cases h1 : N = 1
      · rw [linspace]; simp [h1]
      · rw [hlin_true_big (by omega)]
        exact hfirst _ (by rw [Nat.cast_zero, zero_mul])
  · intro ep
    have hmono : ∀ s : ℚ, 0 < s →
        ((List.range N).map (fun i : ℕ => (i : ℚ) * s)).Pairwise (· < ·) := by
      intro s hs
      rw [List.pairwise_map]
      refine (List.pairwise_lt_range N).imp (fun h => ?_)
      exact mul_lt_mul_of_pos_right (by exact_mod_cast h) hs
    cases ep with
    | false => rw [hlin_false]; exact hmono _ hstep
    | true =>
      by_cases h1 : N = 1
      · rw [linspace]; simp [h1]
      · rw [hlin_true_big (by omega)]; exact hmono _ (hstep' (by omega))
  · intro x hx
    rw [hlin_false] at hx
    rcases List.mem_map.mp hx with ⟨i, hi, rfl⟩
    have hiN : i < N := List.mem_range.mp hi
    constructor
    · exact mul_nonneg (Nat.cast_nonneg i) hstep.le
    · calc (i : ℚ) * (T / N) < (N : ℚ) * (T / N) :=
            mul_lt_mul_of_pos_right (by exact_mod_cast hiN) hstep
        _ = T := by
            rw [mul_div_assoc']
            exact mul_div_cancel_left₀ T (ne_of_gt hNQ)
  · intro i hi
    have h1 : (linspace T N false).getD (i + 1) 0 = ((i : ℚ) + 1) * (T / N) := by
      rw [hlin_false, List.getD_eq_getElem?_getD, List.getElem?_map,
        List.getElem?_range hi, Option.map_some', Option.getD_some,
        Nat.cast_add, Nat.cast_one]
    have h2 : (linspace T N false).getD i 0 = (i : ℚ) * (T / N) := by
      rw [hlin_false, List.getD_eq_getElem?_getD, List.getElem?_map,
        List.getElem?_range (by omega), Option.map_some', Option.getD_some]
    rw [h1, h2]; ring
  · intro h2
    have hs' := hstep' h2
    have hcast : (2 : ℚ) ≤ (N : ℚ) := by exact_mod_cast h2
    have hne : ((N : ℚ) - 1) ≠ 0 := by linarith
    constructor
    · intro x hx
      rw [hlin_true_big h2] at hx
      rcases List.mem_map.mp hx with ⟨i, hi, rfl⟩
      have hiN : i < N := List.mem_range.mp hi
      have hile : (i : ℚ) ≤ (N : ℚ) - 1 := by
        have : (i : ℚ) + 1 ≤ (N : ℚ) := by exact_mod_cast hiN
        linarith
      constructor
      · exact mul_nonneg (Nat.cast_nonneg i) hs'.le
      · calc (i : ℚ) * (T / ((N : ℚ) - 1))
            ≤ ((N : ℚ) - 1) * (T / ((N : ℚ) - 1)) :=
              mul_le_mul_of_nonneg_right hile hs'.le
          _ = T := by
              rw [mul_div_assoc']
              exact mul_div_cancel_left₀ T hne
    · rw [hlin_true_big h2, List.getLast?_eq_getElem?, List.length_map,
        List.length_range, List.getElem?_map,
        List.getElem?_range (by omega : N - 1 < N), Option.map_some']
      have hcastsub : ((N - 1 : ℕ) : ℚ) = (N : ℚ) - 1 := by
        have := Nat.cast_sub (by omega : 1 ≤ N) (R := ℚ)
        simpa using this
      rw [hcastsub, mul_div_assoc']
      rw [mul_div_cancel_left₀ T hne]
  · intro h1
    rw [linspace]; simp [h1]

/-- Witness for C2 (amended) at `T = 1`, `N = 2`. -/
theorem make_time_axis_spec_witness :
    ((0 : ℚ) < 1) ∧ (0 < 2) ∧
    ((∀ ep : Bool, make_time_axis 1 2 ep = .ok (linspace 1 2 ep)) ∧
    (∀ ep : Bool, (linspace 1 2 ep).length = 2) ∧
    (∀ ep : Bool, (linspace 1 2 ep).head? = some 0) ∧
    (∀ ep : Bool, (linspace 1 2 ep).Pairwise (· < ·)) ∧
    (∀ x ∈ linspace 1 2 false, 0 ≤ x ∧ x < 1) ∧
    (∀ i : ℕ, i + 1 < 2 →
      (linspace (1 : ℚ) 2 false).getD (i + 1) 0
        - (linspace (1 : ℚ) 2 false).getD i 0 = 1 / 2) ∧
    (2 ≤ 2 → (∀ x ∈ linspace 1 2 true, 0 ≤ x ∧ x ≤ 1) ∧
      (linspace (1 : ℚ) 2 true).getLast? = some 1) ∧
    (2 = 1 → linspace 1 2 true = [0])) :=
  ⟨by decide, by decide, make_time_axis_spec 1 2 (by decide) (by decide)⟩

/-! ### Helper lemmas for the builders -/

theorem make_time_axis_ok {T : ℚ} {N : ℕ} (hT : 0 < T) (hN : N ≠ 0)
    (ep : Bool) : make_time_axis T N ep = .ok (linspace T N ep) := by
  rw [make_time_axis, if_neg hN, if_neg (not_le.mpr hT)]

theorem linspace_false_eq (T : ℚ) (N : ℕ) :
    linspace T N false
      = (List.range N).map (fun i : ℕ => (i : ℚ) * (T / N)) := by
  rw [linspace]
  rfl

theorem mem_linspace_false_bounds {T : ℚ} {N : ℕ} (hT : 0 < T) :
    ∀ x ∈ linspace T N false, 0 ≤ x ∧ x < T := by
  intro x hx
  rw [linspace_false_eq] at hx
  rcases List.mem_map.mp hx with ⟨i, hi, rfl⟩
  have hiN : i < N := List.mem_range.mp hi
  have hN0 : 0 < N := by omega
  have hNQ : (0 : ℚ) < (N : ℚ) := by exact_mod_cast hN0
  have hstep : 0 < T / (N : ℚ) := div_pos hT hNQ
  refine ⟨mul_nonneg (Nat.cast_nonneg i) hstep.le, ?_⟩
  calc (i : ℚ) * (T / N) < (N : ℚ) * (T / N) :=
        mul_lt_mul_of_pos_right (by exact_mod_cast hiN) hstep
    _ = T := by
        rw [mul_div_assoc']
        exact mul_div_cancel_left₀ T (ne_of_gt hNQ)

theorem peakOf_le {w : List ℚ} {b : ℚ} (hb : 0 ≤ b)
    (h : ∀ x ∈ w, |x| ≤ b) : peakOf w ≤ b := by
  induction w with
  | nil => exact hb
  | cons y ys ih =>
    rw [peakOf_cons]
    exact max_le (h y (List.mem_cons_self y ys))
      (ih (fun x hx => h x (List.mem_cons_of_mem y hx)))

theorem build_square_lut_eq (p : SquareWaveParams) (N : ℕ) (s : String)
    (hf : 0 < p.f_rep_hz) (hd0 : 0 ≤ p.duty) (hd1 : p.duty ≤ 1)
    (hN : N ≠ 0) :
    build_square_lut p N s =
      (waveform_to_lut
        ((linspace (1 / p.f_rep_hz) N false).map
          (fun t => if t < p.duty * (1 / p.f_rep_hz) then p.high else p.low))
        s true).map
        (fun lut => (linspace (1 / p.f_rep_hz) N false, lut, p.f_rep_hz,
          p.duty * (1 / p.f_rep_hz))) := by
  have hax := make_time_axis_ok (one_div_pos.mpr hf) hN false
  have hdu : ¬ (p.duty < 0 ∨ 1 < p.duty) := by
    rw [not_or]; exact ⟨not_lt.mpr hd0, not_lt.mpr hd1⟩
  rcases hres : waveform_to_lut
      ((linspace (1 / p.f_rep_hz) N false).map
        (fun t => if t < p.duty * (1 / p.f_rep_hz) then p.high else p.low))
      s true with e | lut <;>
    simp only [build_square_lut, if_neg (not_le.mpr hf), if_neg hdu,
      hax, hres, Except.map]

/-- C4: for valid square-wave parameters the builder normalizes the raw
waveform whose samples are `high` exactly where the time-axis sample
satisfies `t < duty * T` (strict, `T = 1/f_rep_hz`) and `low`
otherwise, and returns `f_rep_hz` unchanged with the single boundary
`duty * T`; concretely, with `f_rep_hz = 1000`, `duty = 1/2`,
`high = 1`, `low = -1`, `N = 2048` it returns `f_rep = 1000`,
boundary `1/2000 = 0.0005`, and a LUT whose first `1024` samples
(exactly half) equal `1` and whose remaining `1024` equal `-1`. -/
theorem square_lut_spec (p : SquareWaveParams) (N : ℕ) (s : String)
    (hf : 0 < p.f_rep_hz) (hd0 : 0 ≤ p.duty) (hd1 : p.duty ≤ 1)
    (hN : N ≠ 0) :
    (build_square_lut p N s =
      (waveform_to_lut
        ((linspace (1 / p.f_rep_hz) N false).map
          (fun t => if t < p.duty * (1 / p.f_rep_hz) then p.high else p.low))
        s true).map
        (fun lut => (linspace (1 / p.f_rep_hz) N false, lut, p.f_rep_hz,
          p.duty * (1 / p.f_rep_hz)))) ∧
    build_square_lut ⟨1000, 1/2, 1, -1⟩ 2048 "peak" =
      .ok (linspace (1/1000) 2048 false,
        List.replicate 1024 (1 : ℚ) ++ List.replicate 1024 (-1 : ℚ),
        1000, 1/2000) ∧
    (List.replicate 1024 (1 : ℚ) ++ List.replicate 1024 (-1 : ℚ)).count 1
      = 1024 ∧
    (List.replicate 1024 (1 : ℚ) ++ List.replicate 1024 (-1 : ℚ)).count (-1)
      = 1024 ∧
    (List.replicate 1024 (1 : ℚ) ++ List.replicate 1024 (-1 : ℚ)).length
      = 2048 := by
  have hrep : ∀ x ∈ List.replicate 1024 (1 : ℚ) ++ List.replicate 1024 (-1 : ℚ),
      x = 1 ∨ x = -1 := by
    intro x hx
    rcases List.mem_append.mp hx with h | h
    · exact Or.inl (List.mem_replicate.mp h).2
    · exact Or.inr (List.mem_replicate.mp h).2
  have habs : ∀ x ∈ List.replicate 1024 (1 : ℚ) ++ List.replicate 1024 (-1 : ℚ),
      |x| ≤ 1 := by
    intro x hx
    rcases hrep x hx with h | h <;> rw [h] <;> norm_num
  refine ⟨build_square_lut_eq p N s hf hd0 hd1 hN, ?_, ?_, ?_, ?_⟩
  · have hwave :
        ((linspace ((1:ℚ)/1000) 2048 false).map
          (fun t => if t < (1/2 : ℚ) * (1/1000) then (1:ℚ) else (-1:ℚ)))
          = List.replicate 1024 (1 : ℚ) ++ List.replicate 1024 (-1 : ℚ) := by
      rw [linspace_false_eq, List.map_map]
      have hcond : ∀ i ∈ List.range 2048,
          ((fun t => if t < (1/2 : ℚ) * (1/1000) then (1:ℚ) else (-1:ℚ)) ∘
            (fun i : ℕ => (i : ℚ) * ((1:ℚ)/1000 / ((2048:ℕ) : ℚ)))) i
            = (fun i : ℕ => if i < 1024 then (1:ℚ) else (-1:ℚ)) i := by
        intro i _
        have hiff : (i : ℚ) * ((1:ℚ)/1000 / ((2048:ℕ) : ℚ))
            < (1/2 : ℚ) * (1/1000) ↔ i < 1024 := by
          rw [show ((1:ℚ)/1000 / ((2048:ℕ) : ℚ)) = 1/2048000 by norm_num,
            show (1/2 : ℚ) * (1/1000) = 1024 * (1/2048000) by norm_num,
            mul_lt_mul_right (by norm_num : (0:ℚ) < 1/2048000)]
          exact_mod_cast Iff.rfl
        by_cases hc : i < 1024
        · show (if (i : ℚ) * ((1:ℚ)/1000 / ((2048:ℕ) : ℚ))
              < (1/2 : ℚ) * (1/1000) then (1:ℚ) else -1)
            = (if i < 1024 then (1:ℚ) else -1)
          rw [if_pos (hiff.mpr hc), if_pos hc]
        · show (if (i : ℚ) * ((1:ℚ)/1000 / ((2048:ℕ) : ℚ))
              < (1/2 : ℚ) * (1/1000) then (1:ℚ) else -1)
            = (if i < 1024 then (1:ℚ) else -1)
          rw [if_neg (fun hlt => hc (hiff.mp hlt)), if_neg hc]
      rw [List.map_congr_left hcond,
        show (2048 : ℕ) = 1024 + 1024 by norm_num,
        List.range_add, List.map_append, List.map_map]
      refine congrArg₂ (· ++ ·) ?_ ?_
      · refine List.eq_replicate_iff.mpr ⟨by simp, ?_⟩
        intro b hb
        rcases List.mem_map.mp hb with ⟨i, hi, rfl⟩
        exact if_pos (List.mem_range.mp hi)
      · refine List.eq_replicate_iff.mpr ⟨by simp, ?_⟩
        intro b hb
        rcases List.mem_map.mp hb with ⟨i, hi, rfl⟩
        show (if 1024 + i < 1024 then (1:ℚ) else -1) = -1
        exact if_neg (by omega)
    have hmem1 : (1:ℚ) ∈
        List.replicate 1024 (1 : ℚ) ++ List.replicate 1024 (-1 : ℚ) :=
      List.mem_append_left _ (List.mem_replicate.mpr ⟨by norm_num, rfl⟩)
    have hpeak :
        peakOf (List.replicate 1024 (1 : ℚ) ++ List.replicate 1024 (-1 : ℚ))
          = 1 := by
      refine le_antisymm (peakOf_le zero_le_one habs) ?_
      have := abs_le_peakOf hmem1
      rwa [abs_one] at this
    have hlut : waveform_to_lut
        (List.replicate 1024 (1 : ℚ) ++ List.replicate 1024 (-1 : ℚ))
        "peak" true
        = .ok (List.replicate 1024 (1 : ℚ) ++ List.replicate 1024 (-1 : ℚ)) := by
      rw [waveform_to_lut_peak, hpeak, if_neg (by norm_num)]
      have hdiv :
          (List.replicate 1024 (1 : ℚ) ++ List.replicate 1024 (-1 : ℚ)).map
            (fun x => x / 1)
          = List.replicate 1024 (1 : ℚ) ++ List.replicate 1024 (-1 : ℚ) := by
        exact map_id_of_mem (fun a _ => div_one a)
      simp only [if_true, hdiv,
        map_id_of_mem (fun a ha => clip1_of_abs_le (habs a ha))]
    rw [build_square_lut_eq ⟨1000, 1/2, 1, -1⟩ 2048 "peak"
        (by norm_num) (by norm_num) (by norm_num) (by norm_num)]
    show (waveform_to_lut
        ((linspace ((1:ℚ)/1000) 2048 false).map
          (fun t => if t < (1/2 : ℚ) * (1/1000) then (1:ℚ) else (-1:ℚ)))
        "peak" true).map
        (fun lut => (linspace ((1:ℚ)/1000) 2048 false, lut, (1000 : ℚ),
          (1/2 : ℚ) * (1/1000))) = _
    rw [hwave, hlut]
    show Except.ok (linspace ((1:ℚ)/1000) 2048 false,
        List.replicate 1024 (1 : ℚ) ++ List.replicate 1024 (-1 : ℚ),
        (1000 : ℚ), (1/2 : ℚ) * (1/1000)) = _
    norm_num
  · rw [List.count_append, List.count_replicate_self, List.count_replicate,
      if_neg (by decide : ¬ (((-1 : ℚ) == 1) = true))]
  · rw [List.count_append, List.count_replicate_self, List.count_replicate,
      if_neg (by decide : ¬ (((1 : ℚ) == -1) = true))]
  · simp

/-- Witness for C4 at `p = ⟨1, 0, 1, 0⟩`, `N = 1`, strategy `"peak"`
(the interesting concrete facts in the conclusion are closed and do not
depend on the instantiation). -/
theorem square_lut_spec_witness :
    ((0 : ℚ) < 1) ∧ ((0 : ℚ) ≤ 0) ∧ ((0 : ℚ) ≤ 1) ∧ ((1 : ℕ) ≠ 0) ∧
    (build_square_lut ⟨1, 0, 1, 0⟩ 1 "peak" =
      (waveform_to_lut
        ((linspace (1 / (1 : ℚ)) 1 false).map
          (fun t => if t < (0 : ℚ) * (1 / (1 : ℚ)) then (1 : ℚ) else (0 : ℚ)))
        "peak" true).map
        (fun lut => (linspace (1 / (1 : ℚ)) 1 false, lut, (1 : ℚ),
          (0 : ℚ) * (1 / (1 : ℚ)))) ∧
      build_square_lut ⟨1000, 1/2, 1, -1⟩ 2048 "peak" =
        .ok (linspace (1/1000) 2048 false,
          List.replicate 1024 (1 : ℚ) ++ List.replicate 1024 (-1 : ℚ),
          1000, 1/2000) ∧
      (List.replicate 1024 (1 : ℚ) ++ List.replicate 1024 (-1 : ℚ)).count 1
        = 1024 ∧
      (List.replicate 1024 (1 : ℚ) ++ List.replicate 1024 (-1 : ℚ)).count (-1)
        = 1024 ∧
      (List.replicate 1024 (1 : ℚ) ++ List.replicate 1024 (-1 : ℚ)).length
        = 2048) :=
  ⟨by decide, by decide, by decide, by decide,
    square_lut_spec ⟨1, 0, 1, 0⟩ 1 "peak"
      (by decide) (by decide) (by decide) (by decide)⟩

/-- C6: `build_square_lut` with normalization `"peak"` fails with
`NormalizationError` when the raw waveform is the constant `0` — that
is, when `duty = 1` and `high = 0`, or `duty = 0` and `low = 0` — and
returns no LUT, rather than clamping silently. -/
theorem square_lut_duty_edge_normalization_error (p : SquareWaveParams)
    (N : ℕ) (hN : N ≠ 0) (hf : 0 < p.f_rep_hz)
    (h : (p.duty = 1 ∧ p.high = 0) ∨ (p.duty = 0 ∧ p.low = 0)) :
    build_square_lut p N "peak" =
      .error (.normalizationError
        "Waveform peak is zero or non-finite; cannot normalize.") := by
  have hT : 0 < 1 / p.f_rep_hz := one_div_pos.mpr hf
  have hd0 : 0 ≤ p.duty := by
    rcases h with ⟨h1, _⟩ | ⟨h1, _⟩ <;> rw [h1] <;> norm_num
  have hd1 : p.duty ≤ 1 := by
    rcases h with ⟨h1, _⟩ | ⟨h1, _⟩ <;> rw [h1] <;> norm_num
  rw [build_square_lut_eq p N "peak" hf hd0 hd1 hN]
  have hzero : ∀ x ∈ (linspace (1 / p.f_rep_hz) N false).map
      (fun t => if t < p.duty * (1 / p.f_rep_hz) then p.high else p.low),
      x = 0 := by
    intro x hx
    rcases List.mem_map.mp hx with ⟨t, ht, rfl⟩
    rcases mem_linspace_false_bounds hT t ht with ⟨ht0, htT⟩
    rcases h with ⟨hd, hh⟩ | ⟨hd, hl⟩
    · rw [hd, one_mul, if_pos htT]
      exact hh
    · rw [hd, zero_mul, if_neg (not_lt.mpr ht0)]
      exact hl
  rw [waveform_to_lut_peak, peakOf_eq_zero hzero, if_pos (le_refl 0)]
  rfl

/-- Witness for C6 at `p = ⟨1, 0, 1, 0⟩` (duty `0`, low `0`), `N = 2`. -/
theorem square_lut_duty_edge_normalization_error_witness :
    ((2 : ℕ) ≠ 0) ∧ ((0 : ℚ) < 1) ∧
    (((0 : ℚ) = 1 ∧ (1 : ℚ) = 0) ∨ ((0 : ℚ) = 0 ∧ (0 : ℚ) = 0)) ∧
    build_square_lut ⟨1, 0, 1, 0⟩ 2 "peak" =
      .error (.normalizationError
        "Waveform peak is zero or non-finite; cannot normalize.") :=
  ⟨by decide, by decide, Or.inr ⟨rfl, rfl⟩,
    square_lut_duty_edge_normalization_error ⟨1, 0, 1, 0⟩ 2
      (by decide) (by decide) (Or.inr ⟨rfl, rfl⟩)⟩

theorem waveform_to_lut_peak_ok {w : List ℚ} (hp : 0 < peakOf w) :
    waveform_to_lut w "peak" true
      = .ok ((w.map (fun x => x / peakOf w)).map clip1) := by
  rw [waveform_to_lut_peak, if_neg (not_le.mpr hp)]
  rfl

theorem peakOf_pos_of_all_pos {w : List ℚ} (hne : w ≠ [])
    (h : ∀ x ∈ w, 0 < x) : 0 < peakOf w := by
  rcases List.exists_mem_of_ne_nil w hne with ⟨x, hx⟩
  exact peakOf_pos hx (ne_of_gt (h x hx))

/-- Unfolding of the Ramsey builder on a valid period: the time axis is
built over `T_rep = 2*tau + 2*t_pi2`, the two Gaussian pulses are
evaluated and summed on it, and the normalized LUT is repackaged with
`f_rep = 1 / T_rep` and the four boundaries. -/
theorem build_gaussian_ramsey_lut_eq (gexp : ℚ → ℚ) (p : RamseyParams)
    (N : ℕ) (sf amp : ℚ) (hT : 0 < 2 * p.tau_s + 2 * p.t_pi2_s)
    (hN : N ≠ 0) :
    build_gaussian_ramsey_lut gexp p N sf amp =
      (waveform_to_lut
        ((linspace (2 * p.tau_s + 2 * p.t_pi2_s) N false).map (fun t =>
          0 + gaussian_pulse gexp t
              ((0 + p.tau_s + (0 + p.tau_s + p.t_pi2_s)) / 2)
              (sf * p.t_pi2_s) amp
            + gaussian_pulse gexp t
              ((0 + p.tau_s + p.t_pi2_s + p.tau_s
                + (0 + p.tau_s + p.t_pi2_s + p.tau_s + p.t_pi2_s)) / 2)
              (sf * p.t_pi2_s) amp))
        "peak" true).map
        (fun lut => (linspace (2 * p.tau_s + 2 * p.t_pi2_s) N false, lut,
          1 / (2 * p.tau_s + 2 * p.t_pi2_s),
          (0 + p.tau_s, 0 + p.tau_s + p.t_pi2_s,
           0 + p.tau_s + p.t_pi2_s + p.tau_s,
           0 + p.tau_s + p.t_pi2_s + p.tau_s + p.t_pi2_s))) := by
  simp only [build_gaussian_ramsey_lut, make_time_axis_ok hT hN]
  split
  · rename_i e heq
    rw [heq]
    rfl
  · rename_i lut heq
    rw [heq]
    rfl

theorem ramsey_wave_peak_pos (gexp : ℚ → ℚ) (hg : ∀ x, 0 < gexp x)
    {T : ℚ} {N : ℕ} {c1 c2 s amp : ℚ} (hN : N ≠ 0) (hamp : 0 < amp) :
    0 < peakOf ((linspace T N false).map (fun t =>
      0 + gaussian_pulse gexp t c1 s amp + gaussian_pulse gexp t c2 s amp)) := by
  apply peakOf_pos_of_all_pos
  · intro hnil
    have hlen : ((linspace T N false).map (fun t =>
        0 + gaussian_pulse gexp t c1 s amp
          + gaussian_pulse gexp t c2 s amp)).length = N := by
      rw [List.length_map, linspace_false_eq, List.length_map,
        List.length_range]
    rw [hnil] at hlen
    exact hN hlen.symm
  · intro x hx
    rcases List.mem_map.mp hx with ⟨t, _, rfl⟩
    have h1 : 0 < gaussian_pulse gexp t c1 s amp := by
      rw [gaussian_pulse]
      exact mul_pos hamp (hg _)
    have h2 : 0 < gaussian_pulse gexp t c2 s amp := by
      rw [gaussian_pulse]
      exact mul_pos hamp (hg _)
    linarith

theorem ramsey_wave_amp_zero (gexp : ℚ → ℚ) {T : ℚ} {N : ℕ}
    {c1 c2 s : ℚ} :
    peakOf ((linspace T N false).map (fun t =>
      0 + gaussian_pulse gexp t c1 s 0 + gaussian_pulse gexp t c2 s 0)) = 0 := by
  apply peakOf_eq_zero
  intro x hx
  rcases List.mem_map.mp hx with ⟨t, _, rfl⟩
  simp only [gaussian_pulse, zero_mul, add_zero, zero_add]

/-- C3: for finite positive `tau_s` and `t_pi2_s` (and a valid sample
count, positive amplitude and positive exponential), the pulse-pair
builder returns `f_rep = 1 / (2*tau + 2*t_pi2)` and the boundary tuple
`(t1, t2, t3, t4)` with `t1 = tau`, `t2 = t1 + t_pi2`, `t3 = t2 + tau`,
`t4 = t3 + t_pi2`; the boundaries are strictly increasing, lie within
`[0, period]`, and `t4` equals the period used for the time axis. -/
theorem gaussian_ramsey_freq_boundaries (gexp : ℚ → ℚ)
    (hg : ∀ x, 0 < gexp x) (p : RamseyParams) (N : ℕ) (sf amp : ℚ)
    (htau : 0 < p.tau_s) (hpi : 0 < p.t_pi2_s) (hN : N ≠ 0)
    (hamp : 0 < amp) :
    (∃ lut, build_gaussian_ramsey_lut gexp p N sf amp =
      .ok (linspace (2 * p.tau_s + 2 * p.t_pi2_s) N false, lut,
        1 / (2 * p.tau_s + 2 * p.t_pi2_s),
        (p.tau_s, p.tau_s + p.t_pi2_s, p.tau_s + p.t_pi2_s + p.tau_s,
         p.tau_s + p.t_pi2_s + p.tau_s + p.t_pi2_s))) ∧
    (0 ≤ p.tau_s ∧ p.tau_s < p.tau_s + p.t_pi2_s ∧
     p.tau_s + p.t_pi2_s < p.tau_s + p.t_pi2_s + p.tau_s ∧
     p.tau_s + p.t_pi2_s + p.tau_s
       < p.tau_s + p.t_pi2_s + p.tau_s + p.t_pi2_s) ∧
    p.tau_s + p.t_pi2_s + p.tau_s + p.t_pi2_s
      = 2 * p.tau_s + 2 * p.t_pi2_s := by
  have hT : 0 < 2 * p.tau_s + 2 * p.t_pi2_s := by linarith
  refine ⟨?_, ⟨htau.le, by linarith, by linarith, by linarith⟩, by ring⟩
  rw [build_gaussian_ramsey_lut_eq gexp p N sf amp hT hN,
    waveform_to_lut_peak_ok (ramsey_wave_peak_pos gexp hg hN hamp)]
  simp only [Except.map, zero_add]
  exact ⟨_, rfl⟩

/-- Witness for C3 at `gexp = const 1`, `t_pi2_s = tau_s = 1`, `N = 4`,
`sigma_frac = 1`, `amp = 1`. -/
theorem gaussian_ramsey_freq_boundaries_witness :
    (∀ x : ℚ, (0 : ℚ) < (fun _ : ℚ => (1 : ℚ)) x) ∧ ((0 : ℚ) < 1) ∧
    ((4 : ℕ) ≠ 0) ∧
    ((∃ lut, build_gaussian_ramsey_lut (fun _ : ℚ => (1 : ℚ)) ⟨1, 1⟩ 4 1 1 =
      .ok (linspace (2 * 1 + 2 * 1) 4 false, lut, 1 / (2 * 1 + 2 * 1),
        ((1 : ℚ), 1 + 1, 1 + 1 + 1, 1 + 1 + 1 + 1))) ∧
    ((0 : ℚ) ≤ 1 ∧ (1 : ℚ) < 1 + 1 ∧ (1 : ℚ) + 1 < 1 + 1 + 1 ∧
     (1 : ℚ) + 1 + 1 < 1 + 1 + 1 + 1) ∧
    (1 : ℚ) + 1 + 1 + 1 = 2 * 1 + 2 * 1) :=
  ⟨fun _ => zero_lt_one, by decide, by decide,
    gaussian_ramsey_freq_boundaries (fun _ : ℚ => (1 : ℚ))
      (fun _ => zero_lt_one) ⟨1, 1⟩ 4 1 1
      (by decide) (by decide) (by decide) (by decide)⟩

unseal Rat.mul Rat.inv Rat.add Rat.sub in
/-- C7 counterexample: with `tau_s = -1` (not positive) and
`t_pi2_s = 2` the derived period `2*tau + 2*t_pi2 = 2` is valid, so
`build_gaussian_ramsey_lut` succeeds (here with the constant positive
exponential and `N = 4`, `sigma_frac = 1`, `amp = 1`) instead of
failing with `InvalidArgument` as the claim requires. -/
theorem gaussian_ramsey_no_param_validation_cex :
    ¬ (0 < (⟨2, -1⟩ : RamseyParams).tau_s) ∧
    (build_gaussian_ramsey_lut (fun _ : ℚ => (1 : ℚ))
      ⟨2, -1⟩ 4 1 1).isOk = true ∧
    isInvalidArg (build_gaussian_ramsey_lut (fun _ : ℚ => (1 : ℚ))
      ⟨2, -1⟩ 4 1 1) = false :=
  ⟨by decide, by decide, by decide⟩

/-- C7 (amended): the pulse-pair builder validates only the derived
period `T = 2*tau_s + 2*t_pi2_s` (through the time-axis builder): when
`T > 0` it proceeds and succeeds (for positive amplitude and positive
exponential) even if `tau_s` or `t_pi2_s` individually is not
positive, and it fails with `InvalidArgument` when `T < 0` (the case
`T = 0` raises a division error in the source before any check). -/
theorem gaussian_ramsey_period_validation (gexp : ℚ → ℚ)
    (hg : ∀ x, 0 < gexp x) (p : RamseyParams) (N : ℕ) (sf amp : ℚ)
    (hN : N ≠ 0) (hamp : 0 < amp) :
    (0 < 2 * p.tau_s + 2 * p.t_pi2_s →
      (build_gaussian_ramsey_lut gexp p N sf amp).isOk = true) ∧
    (2 * p.tau_s + 2 * p.t_pi2_s < 0 →
      isInvalidArg (build_gaussian_ramsey_lut gexp p N sf amp) = true) := by
  constructor
  · intro hT
    rw [build_gaussian_ramsey_lut_eq gexp p N sf amp hT hN,
      waveform_to_lut_peak_ok (ramsey_wave_peak_pos gexp hg hN hamp)]
    rfl
  · intro hT
    simp only [build_gaussian_ramsey_lut, make_time_axis]
    rw [if_neg hN, if_pos (le_of_lt hT)]
    rfl

/-- Witness for C7 (amended) at `gexp = const 1`,
`t_pi2_s = 2, tau_s = -1`, `N = 4`, `sigma_frac = 1`, `amp = 1`. -/
theorem gaussian_ramsey_period_validation_witness :
    (∀ x : ℚ, (0 : ℚ) < (fun _ : ℚ => (1 : ℚ)) x) ∧ ((4 : ℕ) ≠ 0) ∧
    ((0 : ℚ) < 1) ∧
    ((0 < 2 * (⟨2, -1⟩ : RamseyParams).tau_s
        + 2 * (⟨2, -1⟩ : RamseyParams).t_pi2_s →
      (build_gaussian_ramsey_lut (fun _ : ℚ => (1 : ℚ))
        ⟨2, -1⟩ 4 1 1).isOk = true) ∧
    (2 * (⟨2, -1⟩ : RamseyParams).tau_s
        + 2 * (⟨2, -1⟩ : RamseyParams).t_pi2_s < 0 →
      isInvalidArg (build_gaussian_ramsey_lut (fun _ : ℚ => (1 : ℚ))
        ⟨2, -1⟩ 4 1 1) = true)) :=
  ⟨fun _ => zero_lt_one, by decide, by decide,
    gaussian_ramsey_period_validation (fun _ : ℚ => (1 : ℚ))
      (fun _ => zero_lt_one) ⟨2, -1⟩ 4 1 1 (by decide) (by decide)⟩

/-- C10: with valid timing parameters and `amp = 0`, the summed
waveform is identically zero, so `build_gaussian_ramsey_lut` fails
with `NormalizationError` and returns no LUT. -/
theorem gaussian_ramsey_zero_amp_error (gexp : ℚ → ℚ) (p : RamseyParams)
    (N : ℕ) (sf : ℚ) (htau : 0 < p.tau_s) (hpi : 0 < p.t_pi2_s)
    (hsf : 0 < sf) (hN : N ≠ 0) :
    build_gaussian_ramsey_lut gexp p N sf 0 =
      .error (.normalizationError
        "Waveform peak is zero or non-finite; cannot normalize.") := by
  have hT : 0 < 2 * p.tau_s + 2 * p.t_pi2_s := by linarith
  rw [build_gaussian_ramsey_lut_eq gexp p N sf 0 hT hN,
    waveform_to_lut_peak, ramsey_wave_amp_zero gexp, if_pos (le_refl 0)]
  rfl

/-- Witness for C10 at `gexp = const 1`, `t_pi2_s = tau_s = 1`,
`N = 4`, `sigma_frac = 1`. -/
theorem gaussian_ramsey_zero_amp_error_witness :
    ((0 : ℚ) < 1) ∧ ((4 : ℕ) ≠ 0) ∧
    build_gaussian_ramsey_lut (fun _ : ℚ => (1 : ℚ)) ⟨1, 1⟩ 4 1 0 =
      .error (.normalizationError
        "Waveform peak is zero or non-finite; cannot normalize.") :=
  ⟨by decide, by decide,
    gaussian_ramsey_zero_amp_error (fun _ : ℚ => (1 : ℚ)) ⟨1, 1⟩ 4 1
      (by decide) (by decide) (by decide) (by decide)⟩

end Waveforms
